import Mathlib

/-!
Verification development for the specification-to-operation compiler of the
TikHub API documentation app.

The TypeScript sources are embedded shallowly:

* `src/src/lib/openapi.ts` — schema resolution, example synthesis,
  operation normalization, catalog sorting;
* `src/api/proxy.ts` — the relay's payload validation pipeline;
* the snippet builder source — URL construction (`buildUrl`).

Modelling conventions:

* JSON values are the inductive `Value`; JavaScript records become
  association lists in insertion order (JS object keys are unique, which a
  hypothesis records where a proof needs it);
* optional (possibly-`undefined`) fields become `Option`;
* TypeScript string unions (HTTP methods, parameter locations) stay `String`;
* `String.prototype.localeCompare` is modelled as the lexicographic order on
  `String`;
* JS field names that are Lean keywords are renamed: `example` becomes
  `exampleVal`, `default` becomes `defaultVal`, `in` becomes `inLoc`,
  `enum` becomes `enumVals`.
-/

namespace TikHub

/-- Decides whether one character list is a prefix of another (the building
block for the substring tests below). -/
def isPrefixB : List Char → List Char → Bool
  | [], _ => true
  | _ :: _, [] => false
  | a :: as, b :: bs => a == b && isPrefixB as bs

/-- Models `String.prototype.includes`: does the haystack contain the
needle as a contiguous substring? -/
def containsSubB : List Char → List Char → Bool
  | _, [] => true
  | [], _ :: _ => false
  | h :: hs, n :: ns => isPrefixB (n :: ns) (h :: hs) || containsSubB hs (n :: ns)

/-- Models `String.prototype.startsWith`. -/
def jsStartsWith (s pat : String) : Bool := isPrefixB pat.toList s.toList

/-- Drops leading and trailing whitespace from a character list. -/
def trimChars (l : List Char) : List Char :=
  ((l.dropWhile Char.isWhitespace).reverse.dropWhile Char.isWhitespace).reverse

/-- Models `String.prototype.trim`. -/
def jsTrim (s : String) : String := String.mk (trimChars s.toList)

/-- Models `String.prototype.toLowerCase` (ASCII, which is all the app
keyword table needs). -/
def jsToLower (s : String) : String := String.mk (s.toList.map Char.toLower)

/-- Models `String.prototype.toUpperCase` (ASCII, which is all the relay's
method check needs). -/
def jsToUpper (s : String) : String := String.mk (s.toList.map Char.toUpper)

/-- Models `text.split("/")`: every `/` separates, empty pieces included. -/
def splitOnSlash : List Char → List (List Char)
  | [] => [[]]
  | c :: rest =>
    let r := splitOnSlash rest
    if c == '/' then [] :: r
    else
      match r with
      | first :: others => (c :: first) :: others
      | [] => [[c]]

/-- Strict lexicographic comparison of character lists by code point; the
model of `localeCompare < 0` used for the catalog order. -/
def lexLtB : List Char → List Char → Bool
  | [], [] => false
  | [], _ :: _ => true
  | _ :: _, [] => false
  | a :: as, b :: bs => if a < b then true else if b < a then false else lexLtB as bs

/-- Strict lexicographic order on strings. -/
def strLt (a b : String) : Prop := lexLtB a.toList b.toList = true

/-- Lexicographic order (reflexive) on strings: not strictly above. -/
def strLe (a b : String) : Prop := lexLtB b.toList a.toList = false

instance (a b : String) : Decidable (strLt a b) := by unfold strLt; infer_instance

instance (a b : String) : Decidable (strLe a b) := by unfold strLe; infer_instance

theorem lexLtB_irrefl : ∀ l : List Char, lexLtB l l = false := by
  intro l
  induction l with
  | nil => rfl
  | cons c rest ih => simp [lexLtB, ih]

theorem lexLtB_trans : ∀ a b c : List Char,
    lexLtB a b = true → lexLtB b c = true → lexLtB a c = true := by
  intro a
  induction a with
  | nil =>
    intro b c hab hbc
    cases b with
    | nil => exact hbc
    | cons y ys =>
      cases c with
      | nil => simp [lexLtB] at hbc
      | cons z zs => rfl
  | cons x xs ih =>
    intro b c hab hbc
    cases b with
    | nil => simp [lexLtB] at hab
    | cons y ys =>
      cases c with
      | nil => simp [lexLtB] at hbc
      | cons z zs =>
        simp only [lexLtB] at hab hbc ⊢
        by_cases h1 : x < y
        · by_cases h2 : y < z
          · simp [h1.trans h2]
          · by_cases h3 : z < y
            · simp [h2, h3] at hbc
            · have hyz : y = z := le_antisymm (not_lt.mp h3) (not_lt.mp h2)
              subst hyz
              simp [h1]
        · by_cases h1b : y < x
          · simp [h1, h1b] at hab
          · have hxy : x = y := le_antisymm (not_lt.mp h1b) (not_lt.mp h1)
            subst hxy
            simp only [lt_irrefl, if_false] at hab hbc ⊢
            by_cases h2 : x < z
            · simp [h2]
            · by_cases h3 : z < x
              · simp [h2, h3] at hbc
              · have hxz : x = z := le_antisymm (not_lt.mp h3) (not_lt.mp h2)
                subst hxz
                simp only [lt_irrefl, if_false] at hab hbc ⊢
                exact ih ys zs hab hbc

theorem lexLtB_total : ∀ a b : List Char,
    lexLtB a b = false → a ≠ b → lexLtB b a = true := by
  intro a
  induction a with
  | nil =>
    intro b hab hne
    cases b with
    | nil => exact absurd rfl hne
    | cons y ys => simp [lexLtB] at hab
  | cons x xs ih =>
    intro b hab hne
    cases b with
    | nil => rfl
    | cons y ys =>
      simp only [lexLtB] at hab ⊢
      rcases lt_trichotomy x y with h1 | h1 | h1
      · simp [h1] at hab
      · subst h1
        simp only [lt_irrefl, if_false] at hab ⊢
        refine ih ys hab ?_
        intro h; exact hne (by rw [h])
      · simp [h1, lt_asymm h1]

/-- A JSON-like runtime value (the `unknown` values the compiler passes
around: examples, defaults, synthesized payloads).  Numbers are modelled as
integers — the synthesizer only ever produces the literal `1`. -/
inductive Value where
  | null : Value
  | bool : Bool → Value
  | num : Int → Value
  | str : String → Value
  | arr : List Value → Value
  | obj : List (String × Value) → Value
deriving Repr

/-- A schema node, mirroring the `SchemaObject` TypeScript type.  Absent
optional record fields become `none`/`[]`.  (`properties ?? {}`,
`enum?.length`, `oneOf?.length`, … make the empty collection and the absent
collection behave identically in the source.) -/
inductive Schema where
  | mk :
      (type : Option String) →
      (format : Option String) →
      (properties : List (String × Schema)) →
      (items : Option Schema) →
      (enumVals : List Value) →
      (defaultVal : Option Value) →
      (exampleVal : Option Value) →
      (oneOf : List Schema) →
      (anyOf : List Schema) →
      (allOf : List Schema) →
      (addProps : Option (Bool ⊕ Schema)) →
      (ref : Option String) →
      Schema

def Schema.type : Schema → Option String
  | .mk t _ _ _ _ _ _ _ _ _ _ _ => t

def Schema.format : Schema → Option String
  | .mk _ f _ _ _ _ _ _ _ _ _ _ => f

def Schema.properties : Schema → List (String × Schema)
  | .mk _ _ p _ _ _ _ _ _ _ _ _ => p

def Schema.items : Schema → Option Schema
  | .mk _ _ _ i _ _ _ _ _ _ _ _ => i

def Schema.enumVals : Schema → List Value
  | .mk _ _ _ _ e _ _ _ _ _ _ _ => e

def Schema.defaultVal : Schema → Option Value
  | .mk _ _ _ _ _ d _ _ _ _ _ _ => d

def Schema.exampleVal : Schema → Option Value
  | .mk _ _ _ _ _ _ e _ _ _ _ _ => e

def Schema.oneOf : Schema → List Schema
  | .mk _ _ _ _ _ _ _ o _ _ _ _ => o

def Schema.anyOf : Schema → List Schema
  | .mk _ _ _ _ _ _ _ _ a _ _ _ => a

def Schema.allOf : Schema → List Schema
  | .mk _ _ _ _ _ _ _ _ _ a _ _ => a

def Schema.addProps : Schema → Option (Bool ⊕ Schema)
  | .mk _ _ _ _ _ _ _ _ _ _ a _ => a

def Schema.ref : Schema → Option String
  | .mk _ _ _ _ _ _ _ _ _ _ _ r => r

/-- The document-level schema table (`components.schemas`), an association
list keyed by schema name. -/
abbrev SchemaTable := List (String × Schema)

/-- Embeds `getRefName` (openapi.ts:71): the last `/`-separated segment of a
reference string, or the empty string (`parts[parts.length - 1] ?? ""`). -/
def getRefName (ref : String) : String :=
  let parts := splitOnSlash ref.toList
  String.mk ((parts.getLast?).getD [])

/-- Embeds `resolveSchema` (openapi.ts:76): `undefined` stays `undefined`, a
non-reference schema is returned unchanged, a reference is looked up by its
last path segment with the original node as fallback (`schemas[key] ?? schema`). -/
def resolveSchema (schema : Option Schema) (schemas : SchemaTable) : Option Schema :=
  match schema with
  | none => none
  | some s =>
    match s.ref with
    | none => some s
    | some r => some ((schemas.lookup (getRefName r)).getD s)

/-- The node `buildExampleFromSchema` dispatches on: `resolveSchema(schema,
schemas) ?? schema` (openapi.ts:109).  For a present schema the resolver
never returns `undefined`, so the fallback is the resolver's own. -/
def resolvedOf (s : Schema) (schemas : SchemaTable) : Schema :=
  ((resolveSchema (some s) schemas)).getD s

/-- Embeds one step of `Object.assign(acc, value)` for a single source key:
an existing key is overwritten in place, a new key is appended. -/
def setKey (acc : List (String × Value)) (k : String) (v : Value) : List (String × Value) :=
  if acc.any (fun kv => kv.1 == k) then
    acc.map (fun kv => if kv.1 == k then (k, v) else kv)
  else acc ++ [(k, v)]

/-- Embeds `Object.assign(acc, value)` (openapi.ts:125): source keys are
merged left to right, later writes overwriting earlier keys. -/
def objAssign (acc src : List (String × Value)) : List (String × Value) :=
  src.foldl (fun a kv => setKey a kv.1 kv.2) acc

/-- The body of `buildExampleFromSchema` (openapi.ts:103), with the depth
counter replaced by the equivalent structurally decreasing fuel
`6 - depth`: the guard `depth > 5` is exactly `fuel = 0`, and every
recursive call at `depth + 1` runs at `fuel - 1`.  This makes the JS
function's termination on cyclic schema tables a theorem of the embedding. -/
def buildFuel : Nat → Option Schema → SchemaTable → Value
  | 0, _, _ => .obj []
  | _ + 1, none, _ => .obj []
  | f + 1, some schema, schemas =>
    let resolved := resolvedOf schema schemas
    match resolved.exampleVal with
    | some v => v
    | none =>
      match resolved.defaultVal with
      | some v => v
      | none =>
        match resolved.enumVals with
        | v :: _ => v
        | [] =>
          match resolved.oneOf with
          | s1 :: _ => buildFuel f (some s1) schemas
          | [] =>
            match resolved.anyOf with
            | s1 :: _ => buildFuel f (some s1) schemas
            | [] =>
              match resolved.allOf with
              | s1 :: rest =>
                .obj ((s1 :: rest).foldl
                  (fun acc item =>
                    match buildFuel f (some item) schemas with
                    | .obj fields => objAssign acc fields
                    | _ => acc) [])
              | [] =>
                match resolved.type with
                | some ("object") =>
                  let obj := resolved.properties.map
                    (fun kv => (kv.1, buildFuel f (some kv.2) schemas))
                  match obj, resolved.addProps with
                  | [], some (.inr apSchema) =>
                    .obj [("example_key", buildFuel f (some apSchema) schemas)]
                  | _, _ => .obj obj
                | some ("array") => .arr [buildFuel f resolved.items schemas]
                | some ("integer") => .num 1
                | some ("number") => .num 1
                | some ("boolean") => .bool true
                | _ =>
                  if resolved.format == some ("date-time") then .str ("2026-01-01T00:00:00Z")
                  else if resolved.format == some ("date") then .str ("2026-01-01")
                  else .str ("string")

/-- Embeds `buildExampleFromSchema` (openapi.ts:103), whose depth counter
starts at 0, increments on every recursive call, and truncates to an empty
object once `depth > 5`. -/
def buildExampleFromSchema (schema : Option Schema) (schemas : SchemaTable)
    (depth : Nat := 0) : Value :=
  buildFuel (6 - depth) schema schemas

/-- Embeds `schemaType` (openapi.ts:86): `"string"` for an absent schema,
`"enum"` when enumerated values are declared, else the declared `type`
defaulting to `"string"`. -/
def schemaType (schema : Option Schema) : String :=
  match schema with
  | none => "string"
  | some s =>
    match s.enumVals with
    | _ :: _ => "enum"
    | [] => (s.type).getD ("string")

/-- Models the JavaScript `String(value)` coercion on our `Value` type
(strings pass through, numbers/booleans/null print, arrays join their
elements with commas, plain objects print as `[object Object]`). -/
def valueToString : Value → String
  | .null => "null"
  | .bool true => "true"
  | .bool false => "false"
  | .num n => toString n
  | .str s => s
  | .arr vs => String.intercalate (",") (vs.attach.map (fun v => valueToString v.1))
  | .obj _ => "[object Object]"
decreasing_by
  have h := List.sizeOf_lt_of_mem v.2
  simp only [Value.arr.sizeOf_spec]
  omega

/-- The CJK test of `englishOnlyText` (openapi.ts:50): a character in the
ranges U+3400–U+9FFF or U+F900–U+FAFF. -/
def isCjkChar (c : Char) : Bool :=
  (0x3400 ≤ c.toNat && c.toNat ≤ 0x9FFF) || (0xF900 ≤ c.toNat && c.toNat ≤ 0xFAFF)

/-- The per-part CJK test `hasCjk` of `englishOnlyText` (openapi.ts:50). -/
def hasCjkL (l : List Char) : Bool := l.any isCjkChar

/-- The Latin-letter test `/[A-Za-z]/.test(part)` (openapi.ts:58). -/
def hasLatinL (l : List Char) : Bool :=
  l.any (fun c => (('A' ≤ c && c ≤ 'Z') || ('a' ≤ c && c ≤ 'z')))

/-- Collapses every whitespace run to a single space (the flag records
whether the previous character was part of the same run).  Together with
the trim below this models `.replace(/\s+/g, " ").trim()`. -/
def collapseWsAux : Bool → List Char → List Char
  | _, [] => []
  | prev, c :: rest =>
    if c.isWhitespace then
      (if prev then id else (' ' :: ·)) (collapseWsAux true rest)
    else c :: collapseWsAux false rest

/-- The CJK-stripping branch of `englishOnlyText` (openapi.ts:64): CJK runs
become spaces, whitespace collapses to single spaces, the ends are trimmed.
(Replacing each CJK character by a space and then collapsing is equivalent
to replacing each maximal CJK run by one space and then collapsing.) -/
def stripCjk (trimmed : List Char) : List Char :=
  trimChars (collapseWsAux false
    (trimmed.map (fun c => if isCjkChar c then ' ' else c)))

/-- Embeds `englishOnlyText` (openapi.ts:46): trim; split on `/`, trim and
drop empty parts; with more than one part prefer the first Latin-and-no-CJK
part, then the first no-CJK part, then the first Latin part; otherwise strip
CJK runs, collapse whitespace and trim, returning the original trimmed text
when the stripped text is empty (`return stripped || trimmed`). -/
def englishOnlyText (value : String) : String :=
  let trimmed := trimChars value.toList
  if trimmed.isEmpty then ""
  else
    let slashParts := ((splitOnSlash trimmed).map trimChars).filter (fun p => !p.isEmpty)
    let englishPart :=
      if slashParts.length > 1 then
        (slashParts.find? (fun p => hasLatinL p && !hasCjkL p)) <|>
        (slashParts.find? (fun p => !hasCjkL p)) <|>
        (slashParts.find? (fun p => hasLatinL p))
      else none
    match englishPart with
    | some part => String.mk part
    | none =>
      let stripped := stripCjk trimmed
      if stripped.isEmpty then String.mk trimmed else String.mk stripped

/-- Embeds a `ParameterObject` declaration (types.ts): `in` is renamed
`inLoc` and kept as a plain string (`"query" | "header" | "path" | "cookie"`). -/
structure ParameterObject where
  name : String
  inLoc : String
  required : Option Bool := none
  description : Option String := none
  schema : Option Schema := none
  exampleVal : Option Value := none

/-- Embeds a `MediaTypeObject` (types.ts): `examples` is the record of named
examples, each with an optional `value`. -/
structure MediaTypeObject where
  schema : Option Schema := none
  exampleVal : Option Value := none
  examples : List (String × Option Value) := []

/-- Embeds a `ResponseObject` (types.ts). -/
structure ResponseObject where
  description : Option String := none
  content : Option (List (String × MediaTypeObject)) := none

/-- Embeds a `requestBody` declaration (types.ts). -/
structure RequestBodyObject where
  required : Option Bool := none
  content : Option (List (String × MediaTypeObject)) := none

/-- Embeds an `OperationObject` (types.ts).  `security` keeps the
present/absent distinction (`Option`) because the source tests it with
`Boolean(op.security)`; each requirement maps scheme names to scope lists. -/
structure OperationObject where
  operationId : Option String := none
  tags : List String := []
  summary : Option String := none
  description : Option String := none
  parameters : List ParameterObject := []
  requestBody : Option RequestBodyObject := none
  responses : List (String × ResponseObject) := []
  security : Option (List (List (String × List String))) := none

/-- Embeds a `PathItemObject` (types.ts): one optional operation per
recognized HTTP method plus optional path-level parameters. -/
structure PathItem where
  parameters : List ParameterObject := []
  get : Option OperationObject := none
  post : Option OperationObject := none
  put : Option OperationObject := none
  patch : Option OperationObject := none
  delete : Option OperationObject := none
  options : Option OperationObject := none
  head : Option OperationObject := none
  trace : Option OperationObject := none

/-- The lookup `pathItem[method]` for the eight recognized methods. -/
def PathItem.opFor (pi : PathItem) (method : String) : Option OperationObject :=
  if method == "get" then pi.get
  else if method == "post" then pi.post
  else if method == "put" then pi.put
  else if method == "patch" then pi.patch
  else if method == "delete" then pi.delete
  else if method == "options" then pi.options
  else if method == "head" then pi.head
  else if method == "trace" then pi.trace
  else none

/-- Embeds the document's `components` block (types.ts). -/
structure Components where
  schemas : Option SchemaTable := none

/-- Embeds the `info` block (types.ts). -/
structure InfoObject where
  title : Option String := none
  version : Option String := none
  description : Option String := none

/-- Embeds an `OpenApiSpec` document (types.ts): `paths` is the ordered
association list of path templates (JS object keys, hence unique — recorded
as a hypothesis where a proof needs it). -/
structure OpenApiSpec where
  info : Option InfoObject := none
  components : Option Components := none
  paths : List (String × PathItem) := []

/-- Embeds a `ParsedParameter` (types.ts). -/
structure ParsedParameter where
  name : String
  required : Bool
  location : String
  description : String
  type : String
  defaultValue : String
deriving DecidableEq, Repr

/-- Embeds a `ParsedOperation` (types.ts).  The pretty-printed
`requestBodyTemplate` string is omitted: it is `JSON.stringify` presentation
of `requestBodyRaw` and no claim concerns it. -/
structure ParsedOperation where
  id : String
  app : String
  tag : String
  method : String
  path : String
  summary : String
  description : String
  requiresAuth : Bool
  parameters : List ParsedParameter
  requestBodyType : Option String
  requestBodyRaw : Option Value
  responseCodes : List String
  successExample : Value
  errorExample : Value

/-- Embeds `getExampleFromMedia` (openapi.ts:92): take the first media entry;
prefer its explicit `example`, then the `value` of its first named example,
else synthesize from its (resolved) schema. -/
def getExampleFromMedia (content : Option (List (String × MediaTypeObject)))
    (schemas : SchemaTable) : Option Value :=
  match content with
  | none => none
  | some media =>
    match media.head? with
    | none => none
    | some (_, firstMedia) =>
      match firstMedia.exampleVal with
      | some v => some v
      | none =>
        match (firstMedia.examples.head?).bind (fun kv => kv.2) with
        | some v => some v
        | none =>
          some (buildExampleFromSchema (resolveSchema firstMedia.schema schemas) schemas)

/-- Embeds `defaultValueForParameter` (openapi.ts:159): parameter-level
example, then resolved-schema example, default, first enum value, then `"1"`
for integer/number, `"true"` for boolean, else the empty string; every hit
is coerced with `String(...)`. -/
def defaultValueForParameter (param : ParameterObject) (schemas : SchemaTable) : String :=
  match param.exampleVal with
  | some v => valueToString v
  | none =>
    let resolved := resolveSchema param.schema schemas
    match resolved.bind Schema.exampleVal with
    | some v => valueToString v
    | none =>
      match resolved.bind Schema.defaultVal with
      | some v => valueToString v
      | none =>
        match resolved.map Schema.enumVals with
        | some (v :: _) => valueToString v
        | _ =>
          let type := schemaType resolved
          if type == "integer" || type == "number" then "1"
          else if type == "boolean" then "true"
          else ""

/-- Embeds `responseExample` (openapi.ts:171): the preferred status entry's
media example if defined, else the first declared response's, else an empty
object. -/
def responseExample (responses : List (String × ResponseObject))
    (preferredCode : String) (schemas : SchemaTable) : Value :=
  let preferred := responses.lookup preferredCode
  match getExampleFromMedia (preferred.bind ResponseObject.content) schemas with
  | some v => v
  | none =>
    match (responses.head?).map (fun kv => kv.2) with
    | some first =>
      match getExampleFromMedia first.content schemas with
      | some v => v
      | none => .obj []
    | none => .obj []

/-- The ordered app-inference keyword table `APP_KEYWORDS` (openapi.ts:23);
its order is load-bearing, first substring match wins. -/
def APP_KEYWORDS : List (String × List String) :=
  [("TikTok", ["tiktok"]),
   ("Douyin", ["douyin"]),
   ("Instagram", ["instagram"]),
   ("Xiaohongshu", ["xiaohongshu"]),
   ("Lemon8", ["lemon8"]),
   ("YouTube", ["youtube"]),
   ("Twitter", ["twitter"]),
   ("Threads", ["threads"]),
   ("Reddit", ["reddit"]),
   ("Bilibili", ["bilibili"]),
   ("Kuaishou", ["kuaishou"]),
   ("Weibo", ["weibo"]),
   ("WeChat", ["wechat"]),
   ("Zhihu", ["zhihu"]),
   ("Sora2", ["sora2"]),
   ("Toutiao", ["toutiao"]),
   ("Xigua", ["xigua"]),
   ("Pipixia", ["pipixia"]),
   ("LinkedIn", ["linkedin"]),
   ("TikHub Core", ["tikhub", "health", "demo", "temp_mail", "temp-mail"])]

/-- Models `raw.includes(key)` (openapi.ts:197). -/
def strContainsSub (s pat : String) : Bool := containsSubB s.toList pat.toList

/-- Embeds `inferApp` (openapi.ts:194): lower-case `tag path operationId`
joined by spaces, return the first keyword-table entry one of whose keys
occurs as a substring, else `"Other"`. -/
def inferApp (tag path operationId : String) : String :=
  let raw := jsToLower (tag ++ " " ++ path ++ " " ++ operationId)
  match APP_KEYWORDS.find? (fun cand => cand.2.any (fun key => strContainsSub raw key)) with
  | some cand => cand.1
  | none => "Other"

/-- Embeds the duplicate filter of `parseOperations` (openapi.ts:225): keep
the element at index `i` exactly when the first index holding its
`(name, in)` pair is `i` — i.e. keep the first occurrence of each pair. -/
def jsUniqueParams (l : List ParameterObject) : List ParameterObject :=
  (l.enum.filter (fun ip =>
    l.findIdx (fun cand => cand.name == ip.2.name && cand.inLoc == ip.2.inLoc) == ip.1)).map
    Prod.snd

/-- The `(name, in)` identity test on a declared parameter — the identity
the dedup filter of `parseOperations` (openapi.ts:226) compares. -/
def paramKeyB (n loc : String) (c : ParameterObject) : Bool :=
  c.name == n && c.inLoc == loc

/-- The `(name, location)` identity test on a normalized parameter. -/
def parsedKeyB (n loc : String) (c : ParsedParameter) : Bool :=
  c.name == n && c.location == loc

/-- Embeds `parseOperations`' per-parameter normalization (openapi.ts:229). -/
def mkParsedParameter (schemas : SchemaTable) (param : ParameterObject) : ParsedParameter :=
  let resolved := resolveSchema param.schema schemas
  { name := param.name
    required := param.required.getD false
    location := param.inLoc
    description := englishOnlyText (param.description.getD (""))
    type := schemaType resolved
    defaultValue := defaultValueForParameter param schemas }

/-- Embeds `parseOperations`' success-code choice (openapi.ts:251):
`"200"` when declared, else the first declared code, else `"200"`. -/
def successCodeOf (responseCodes : List String) : String :=
  if responseCodes.contains ("200") then "200"
  else (responseCodes.head?).getD ("200")

/-- The 4xx/5xx test of `parseOperations` (openapi.ts:254):
`code.startsWith("4") || code.startsWith("5")`. -/
def isErrorCode (code : String) : Bool :=
  jsStartsWith code ("4") || jsStartsWith code ("5")

/-- Embeds `parseOperations`' error-code choice (openapi.ts:252): `"422"`
when declared, else the first declared `4xx`/`5xx` code, else the success
code. -/
def errorCodeOf (responseCodes : List String) : String :=
  if responseCodes.contains ("422") then "422"
  else
    match responseCodes.find? isErrorCode with
    | some code => code
    | none => successCodeOf responseCodes

/-- `SUPPORTED_METHODS` (openapi.ts:10), walked in this fixed order. -/
def SUPPORTED_METHODS : List String :=
  ["get", "post", "put", "patch", "delete", "options", "head", "trace"]

/-- Embeds the loop body of `parseOperations` (openapi.ts:221-272): the
normalized record built for one declared `(path, method)` operation. -/
def mkOperation (schemas : SchemaTable) (path : String) (pathItem : PathItem)
    (method : String) (op : OperationObject) : ParsedOperation :=
  let tag := (op.tags.head?).getD ("Other")
  let id := op.operationId.getD (method ++ "_" ++ path)
  let app := inferApp tag path id
  let mergedParameters := pathItem.parameters ++ op.parameters
  let uniqueParameters := jsUniqueParams mergedParameters
  let parameters := uniqueParameters.map (mkParsedParameter schemas)
  let content := op.requestBody.bind RequestBodyObject.content
  let requestBodyType := content.bind (fun c => (c.head?).map Prod.fst)
  let requestBodyRaw := getExampleFromMedia content schemas
  let responseCodes := op.responses.map Prod.fst
  let successCode := successCodeOf responseCodes
  let errorCode := errorCodeOf responseCodes
  { id := id
    app := app
    tag := tag
    method := method
    path := path
    summary := englishOnlyText (op.summary.getD id)
    description := englishOnlyText (op.description.getD (""))
    requiresAuth := op.security.isSome
    parameters := parameters
    requestBodyType := requestBodyType
    requestBodyRaw := requestBodyRaw
    responseCodes := responseCodes
    successExample := responseExample op.responses successCode schemas
    errorExample := responseExample op.responses errorCode schemas }

theorem strEqOfToList {a b : String} (h : a.toList = b.toList) : a = b := by
  cases a with
  | mk da =>
    cases b with
    | mk db =>
      have hd : da = db := by simpa [String.toList] using h
      rw [hd]

theorem strLt_trans {a b c : String} (h1 : strLt a b) (h2 : strLt b c) : strLt a c :=
  lexLtB_trans _ _ _ h1 h2

theorem strLt_irrefl (a : String) : ¬ strLt a a := by
  simp [strLt, lexLtB_irrefl]

theorem strTrichotomy (a b : String) : strLt a b ∨ a = b ∨ strLt b a := by
  cases h : lexLtB a.toList b.toList with
  | true => exact Or.inl h
  | false =>
    by_cases he : a = b
    · exact Or.inr (Or.inl he)
    · refine Or.inr (Or.inr (lexLtB_total _ _ h ?_))
      intro hl; exact he (strEqOfToList hl)

theorem strLe_total (a b : String) : strLe a b ∨ strLe b a := by
  unfold strLe
  cases h1 : lexLtB b.toList a.toList with
  | false => exact Or.inl rfl
  | true =>
    cases h2 : lexLtB a.toList b.toList with
    | false => exact Or.inr rfl
    | true =>
      have := lexLtB_trans _ _ _ h1 h2
      rw [lexLtB_irrefl] at this
      exact absurd this (by simp)

theorem strLe_trans {a b c : String} (h1 : strLe a b) (h2 : strLe b c) : strLe a c := by
  unfold strLe at *
  cases hca : lexLtB c.toList a.toList with
  | false => rfl
  | true =>
    exfalso
    by_cases he : c = b
    · subst he; rw [hca] at h1; exact absurd h1 (by simp)
    · have hbc : lexLtB b.toList c.toList = true := by
        refine lexLtB_total _ _ h2 ?_
        intro hl; exact he (strEqOfToList hl)
      have := lexLtB_trans _ _ _ hbc hca
      rw [this] at h1
      exact absurd h1 (by simp)

theorem strLt_ne {a b : String} (h : strLt a b) : a ≠ b := by
  intro he; subst he; exact strLt_irrefl a h

theorem strLt_to_le {a b : String} (h : strLt a b) : strLe a b := by
  unfold strLe
  cases hba : lexLtB b.toList a.toList with
  | false => rfl
  | true =>
    have := lexLtB_trans _ _ _ h hba
    rw [lexLtB_irrefl] at this
    exact absurd this (by simp)

/-- The catalog order used by `parseOperations`' final sort
(openapi.ts:276-280): lexicographic on `(tag, path, method)`, modelling
`localeCompare` as the lexicographic order on `String` by code point. -/
def opLE (a b : ParsedOperation) : Prop :=
  strLt a.tag b.tag ∨ (a.tag = b.tag ∧
    (strLt a.path b.path ∨ (a.path = b.path ∧ strLe a.method b.method)))

instance : DecidableRel opLE := fun a b => by
  unfold opLE
  infer_instance

instance : IsTotal ParsedOperation opLE where
  total a b := by
    unfold opLE
    rcases strTrichotomy a.tag b.tag with h | h | h
    · exact Or.inl (Or.inl h)
    · rcases strTrichotomy a.path b.path with h2 | h2 | h2
      · exact Or.inl (Or.inr ⟨h, Or.inl h2⟩)
      · rcases strLe_total a.method b.method with h3 | h3
        · exact Or.inl (Or.inr ⟨h, Or.inr ⟨h2, h3⟩⟩)
        · exact Or.inr (Or.inr ⟨h.symm, Or.inr ⟨h2.symm, h3⟩⟩)
      · exact Or.inr (Or.inr ⟨h.symm, Or.inl h2⟩)
    · exact Or.inr (Or.inl h)

instance : IsTrans ParsedOperation opLE where
  trans a b c hab hbc := by
    unfold opLE at *
    rcases hab with h1 | ⟨e1, h1⟩
    · rcases hbc with h2 | ⟨e2, _⟩
      · exact Or.inl (strLt_trans h1 h2)
      · exact Or.inl (e2 ▸ h1)
    · rcases hbc with h2 | ⟨e2, h2⟩
      · exact Or.inl (e1 ▸ h2)
      · refine Or.inr ⟨e1.trans e2, ?_⟩
        rcases h1 with h1 | ⟨p1, h1⟩
        · rcases h2 with h2 | ⟨p2, _⟩
          · exact Or.inl (strLt_trans h1 h2)
          · exact Or.inl (p2 ▸ h1)
        · rcases h2 with h2 | ⟨p2, h2⟩
          · exact Or.inl (p1 ▸ h2)
          · exact Or.inr ⟨p1.trans p2, strLe_trans h1 h2⟩

/-- The schema table `parseOperations` resolves against
(openapi.ts:213, `spec.components?.schemas ?? \x7b\x7d`). -/
def specSchemas (spec : OpenApiSpec) : SchemaTable :=
  ((spec.components.bind Components.schemas)).getD []

/-- The `operations` accumulator of `parseOperations` (openapi.ts:214-274)
before the final sort: walk the declared paths in order and the eight
supported methods per path, normalizing each declared operation. -/
def parseOperationsRaw (spec : OpenApiSpec) : List ParsedOperation :=
  spec.paths.flatMap (fun pp =>
    SUPPORTED_METHODS.filterMap (fun method =>
      (pp.2.opFor method).map (fun op =>
        mkOperation (specSchemas spec) pp.1 pp.2 method op)))

/-- Embeds `parseOperations` (openapi.ts:212): the normalized operations,
sorted by `(tag, path, method)`. -/
def parseOperations (spec : OpenApiSpec) : List ParsedOperation :=
  List.insertionSort opLE (parseOperationsRaw spec)

/-- The relay's fixed allow-list `ALLOWED_HOSTS` (proxy.ts:1). -/
def ALLOWED_HOSTS : List String := ["api.tikhub.io", "api.tikhub.dev"]

/-- The relay's fixed method list `ALLOWED_METHODS` (proxy.ts:2). -/
def ALLOWED_METHODS : List String := ["GET", "POST", "PUT", "PATCH", "DELETE"]

/-- The part of a parsed WHATWG URL the relay inspects.  URL parsing itself
(`new URL`) is an external collaborator, passed in as a function below. -/
structure UrlParts where
  protocol : String
  hostname : String
deriving DecidableEq

/-- Embeds a decoded `ProxyPayload` (proxy.ts:4).  The source treats a
`null` body and an absent body identically (`!== null && !== undefined`),
so both are `none`. -/
structure ProxyPayload where
  url : Option String := none
  method : Option String := none
  headers : Option (List (String × String)) := none
  body : Option String := none

/-- Embeds `normalizeHeaders` (proxy.ts:11): entries whose lower-cased key
is `host`, `origin` or `content-length` are dropped, the rest kept under
their raw keys in order (JS record keys are unique, so re-assignment in the
loop is plain filtering). -/
def normalizeHeaders (input : Option (List (String × String))) : List (String × String) :=
  match input with
  | none => []
  | some l =>
    l.filter (fun kv =>
      let key := jsToLower kv.1
      !(key == "host" || key == "origin" || key == "content-length"))

/-- What the relay handler does with a decoded payload: respond locally
with an error status, or forward a single upstream request. -/
inductive ProxyOutcome where
  | reject : Nat → String → ProxyOutcome
  | forward : UrlParts → String → List (String × String) → Option String → ProxyOutcome
deriving DecidableEq

/-- Embeds the payload-validation pipeline of the relay `handler`
(proxy.ts:34-62): trim the target URL (missing or blank is a 400), parse it
(parse failure is a 400, modelled by the external `parseUrl` returning
`none`), reject non-HTTPS or non-allow-listed hosts with 403, reject
disallowed methods with 405, then forward with normalized headers and the
body attached only when present and the method is not GET.  The transport
steps before the payload exists (the POST check and JSON decoding) and the
upstream fetch after `forward` are the relay's external collaborators. -/
def handlePayload (parseUrl : String → Option UrlParts) (payload : ProxyPayload) :
    ProxyOutcome :=
  let urlText := (payload.url.map jsTrim).getD ("")
  if urlText = "" then .reject 400 ("Missing target URL")
  else
    match parseUrl urlText with
    | none => .reject 400 ("Invalid target URL")
    | some targetUrl =>
      if targetUrl.protocol ≠ "https:" ∨ targetUrl.hostname ∉ ALLOWED_HOSTS then
        .reject 403 ("Target host is not allowed")
      else
        let method := jsToUpper (payload.method.getD ("GET"))
        if method ∉ ALLOWED_METHODS then .reject 405 ("Method is not allowed")
        else
          let headers := normalizeHeaders payload.headers
          let body := if payload.body.isSome ∧ method ≠ "GET" then payload.body else none
          .forward targetUrl method headers body

/-- The left brace character, U+007B. -/
def lbrace : Char := Char.ofNat 0x7B

/-- The right brace character, U+007D. -/
def rbrace : Char := Char.ofNat 0x7D

/-- The characters `encodeURIComponent` leaves unescaped: ASCII
alphanumerics and `-_.!~*()` plus the apostrophe (U+0027). -/
def isUnreservedUri (c : Char) : Bool :=
  ('A' ≤ c && c ≤ 'Z') || ('a' ≤ c && c ≤ 'z') || ('0' ≤ c && c ≤ '9') ||
  c == '-' || c == '_' || c == '.' || c == '!' || c == '~' || c == '*' ||
  c == Char.ofNat 0x27 || c == '(' || c == ')'

/-- The UTF-8 bytes of a character, as natural numbers. -/
def utf8Bytes (c : Char) : List Nat :=
  let n := c.toNat
  if n < 0x80 then [n]
  else if n < 0x800 then [0xC0 + n / 0x40, 0x80 + n % 0x40]
  else if n < 0x10000 then
    [0xE0 + n / 0x1000, 0x80 + (n / 0x40) % 0x40, 0x80 + n % 0x40]
  else
    [0xF0 + n / 0x40000, 0x80 + (n / 0x1000) % 0x40, 0x80 + (n / 0x40) % 0x40,
     0x80 + n % 0x40]

/-- An uppercase hexadecimal digit. -/
def hexDigit (n : Nat) : Char :=
  if n < 10 then Char.ofNat (48 + n) else Char.ofNat (55 + n)

/-- The `%XX` escape sequence of one byte. -/
def percentEncodeByte (b : Nat) : List Char :=
  ['%', hexDigit (b / 16), hexDigit (b % 16)]

/-- Models `encodeURIComponent`: unreserved characters pass through, every
other character is replaced by the uppercase percent escapes of its UTF-8
bytes. -/
def encodeURIComponent (s : String) : String :=
  String.mk (s.toList.flatMap
    (fun c => if isUnreservedUri c then [c] else (utf8Bytes c).flatMap percentEncodeByte))

/-- Scans for the closing brace of a placeholder: returns the characters
before the first `\x7d` (the regex capture `[^\x7d]+` of
`/\x7b([^\x7d]+)\x7d/`) and the characters after it. -/
def findClose : List Char → Option (List Char × List Char)
  | [] => none
  | c :: tail =>
    if c == rbrace then some ([], tail)
    else (findClose tail).map (fun nr => (c :: nr.1, nr.2))

theorem findClose_length : ∀ (l n t : List Char), findClose l = some (n, t) →
    t.length < l.length := by
  intro l
  induction l with
  | nil => intro n t h; simp [findClose] at h
  | cons c tail ih =>
    intro n t h
    simp only [findClose] at h
    by_cases hc : c == rbrace
    · rw [if_pos hc] at h
      cases h
      simp
    · rw [if_neg hc] at h
      cases hfc : findClose tail with
      | none => rw [hfc] at h; simp at h
      | some nr =>
        rw [hfc] at h
        have h2 : some ((c :: nr.1, nr.2) : List Char × List Char) = some (n, t) := h
        cases h2
        have := ih nr.1 nr.2 (by rw [hfc])
        simpa using Nat.lt_succ_of_lt this

/-- Embeds the path-substitution stage of `buildUrl` (the
`operation.path.replace(/\x7b([^\x7d]+)\x7d/g, ...)` call): each matched
placeholder is replaced by `encodeURIComponent(pathValues[key] ?? "\x7b" +
key + "\x7d")`; text without a complete non-empty placeholder is copied
verbatim.  The query-string stage (`URLSearchParams`) is an external
collaborator and not modelled. -/
def replacePathParams (pathValues : List (String × String)) : List Char → List Char
  | [] => []
  | c :: rest =>
    if c == lbrace then
      match hfc : findClose rest with
      | some (nameChars, tail) =>
        if nameChars.isEmpty then c :: replacePathParams pathValues rest
        else
          let name := String.mk nameChars
          let value := (pathValues.lookup name).getD
            (String.mk (lbrace :: nameChars ++ [rbrace]))
          (encodeURIComponent value).toList ++ replacePathParams pathValues tail
      | none => c :: replacePathParams pathValues rest
    else c :: replacePathParams pathValues rest
termination_by l => l.length
decreasing_by
  all_goals try simp only [List.length_cons]
  all_goals try omega
  all_goals (have hlen := findClose_length rest nameChars tail hfc; omega)

/-! Concrete documents and schemas used as witnesses and counterexamples. -/

/-- A path-level `id`/`path` parameter declaration (no `required` flag). -/
def pID : ParameterObject := { name := "id", inLoc := "path" }

/-- An operation-level `id`/`path` parameter declaration with
`required: true`. -/
def pIDreq : ParameterObject := { name := "id", inLoc := "path", required := some true }

/-- An operation redeclaring the path-level `id` parameter. -/
def opC1 : OperationObject := { parameters := [pIDreq] }

/-- A document whose path declares `id`/`path` and whose GET operation
redeclares it with `required: true`. -/
def specC1 : OpenApiSpec :=
  { paths := [("/users/\x7bid\x7d", { parameters := [pID], get := some opC1 })] }

/-- An operation declaring an empty security-requirement list. -/
def opEmptySec : OperationObject := { security := some [] }

/-- A document whose only operation declares `security: []`. -/
def specC2 : OpenApiSpec := { paths := [("/a", { get := some opEmptySec })] }

/-- An operation with the explicit operation identifier `dup`. -/
def opDup : OperationObject := { operationId := some ("dup") }

/-- A document in which two different paths both declare an operation with
the same explicit `operationId`. -/
def specC4 : OpenApiSpec :=
  { paths := [("/a", { get := some opDup }), ("/b", { get := some opDup })] }

/-- A reference node pointing at the schema-table entry `Node`. -/
def refNode : Schema :=
  .mk none none [] none [] none none [] [] [] none (some ("#/components/schemas/Node"))

/-- An object schema whose `self` property refers back to itself through
the schema table: a directly cyclic schema graph. -/
def selfNode : Schema :=
  .mk (some ("object")) none [("self", refNode)] none [] none none [] [] [] none none

/-- The cyclic schema table `Node -> selfNode -> Node -> ...`. -/
def cycTable : SchemaTable := [("Node", selfNode)]

/-- A bare integer schema. -/
def numSchema : Schema := .mk (some ("integer")) none [] none [] none none [] [] [] none none

/-- An object schema declaring the single property `a`. -/
def schemaPropA : Schema :=
  .mk (some ("object")) none [("a", numSchema)] none [] none none [] [] [] none none

/-- An object schema declaring the single property `b`. -/
def schemaPropB : Schema :=
  .mk (some ("object")) none [("b", numSchema)] none [] none none [] [] [] none none

/-- A schema composing the two object schemas with `allOf`. -/
def allOfAB : Schema :=
  .mk none none [] none [] none none [] [] [schemaPropA, schemaPropB] none none

/-- An operation declaring exactly the responses `201` and `500`. -/
def op201500 : OperationObject := { responses := [("201", {}), ("500", {})] }

/-! Claim theorems. -/

/-- C2 counterexample: the operation of `specC2` declares `security: []`, an
empty (hence not non-empty) security-requirement list, yet its normalized
record has `requiresAuth = true` — the source computes
`Boolean(op.security)`, which is `true` for an empty array.  The claim that
`requiresAuth` is false here is refuted. -/
theorem c2_counterexample :
    (parseOperations specC2).map ParsedOperation.requiresAuth = [true] ∧
    (parseOperations specC2).map ParsedOperation.requiresAuth ≠ [false] ∧
    opEmptySec.security = some [] := by
  refine ⟨by decide, by decide, rfl⟩

/-- C2 (amended): the normalized operation's `requiresAuth` flag is true if
and only if the operation declares a security field at all — a declared
empty security list also yields `requiresAuth = true`; only an absent
security field yields `false`. -/
theorem c2_requiresAuth_iff_security_declared (schemas : SchemaTable) (path : String)
    (pathItem : PathItem) (method : String) (op : OperationObject) :
    (mkOperation schemas path pathItem method op).requiresAuth = op.security.isSome := rfl

/-- C3 counterexample: the all-CJK input `"仅中文"` does not normalize to the
empty string — stripping leaves an empty string, and the source then falls
back to the original trimmed text (`return stripped || trimmed`). -/
theorem c3_counterexample :
    englishOnlyText ("仅中文") = "仅中文" ∧ ("仅中文" : String) ≠ "" := by
  constructor
  · decide
  · decide

/-- C3 (amended): for input with no `/`-delimited alternative structure
whose CJK-stripped, whitespace-collapsed, trimmed form is empty, the
text-normalization function returns the original trimmed text (not the
empty string). -/
theorem c3_cjk_strip_fallback (value : String)
    (h1 : trimChars value.toList ≠ [])
    (h2 : (((splitOnSlash (trimChars value.toList)).map trimChars).filter
      (fun p => !p.isEmpty)).length ≤ 1)
    (h3 : stripCjk (trimChars value.toList) = []) :
    englishOnlyText value = String.mk (trimChars value.toList) := by
  unfold englishOnlyText
  simp only [List.isEmpty_iff, h1, if_false, h3]
  rw [if_neg (by omega : ¬ _ > 1)]
  simp [h3, List.isEmpty_iff]

/-- C3 witness: the amended behavior at the concrete input `"仅中文"`. -/
theorem c3_witness : englishOnlyText ("仅中文") = "仅中文" := by
  have h := c3_cjk_strip_fallback ("仅中文") (by decide) (by decide) (by decide)
  exact h.trans (by decide)

/-- C5: example synthesis is a total function of the embedding (its depth
counter is structurally decreasing fuel), and past the depth cap of 5 it
returns an empty object, for every schema and every schema table —
including cyclic ones such as `cycTable`. -/
theorem c5_depth_cap (schema : Option Schema) (schemas : SchemaTable) (depth : Nat)
    (h : depth > 5) :
    buildExampleFromSchema schema schemas depth = Value.obj [] := by
  unfold buildExampleFromSchema
  have h6 : 6 - depth = 0 := by omega
  rw [h6]
  cases schema <;> rfl

/-- C5 witness: the cap at depth 6 on the directly self-referential schema
graph `cycTable`. -/
theorem c5_witness :
    buildExampleFromSchema (some selfNode) cycTable 6 = Value.obj [] :=
  c5_depth_cap (some selfNode) cycTable 6 (by decide)

theorem filter_eq_singleton_of {α : Type _} (q : α → Bool) (a : α) :
    ∀ (l : List α), l.Nodup → a ∈ l → q a = true →
      (∀ x ∈ l, q x = true → x = a) → l.filter q = [a] := by
  intro l
  induction l with
  | nil => intro _ ha _ _; simp at ha
  | cons b bs ih =>
    intro hnd hmem hqa huniq
    rcases List.mem_cons.mp hmem with hba | hmem2
    · subst hba
      rw [List.filter_cons, if_pos hqa]
      have hrest : bs.filter q = [] := by
        rw [List.filter_eq_nil_iff]
        intro x hx hqx
        have hxa := huniq x (List.mem_cons_of_mem _ hx) hqx
        subst hxa
        exact (List.nodup_cons.mp hnd).1 hx
      rw [hrest]
    · have hba : b ≠ a := by
        intro he
        subst he
        exact (List.nodup_cons.mp hnd).1 hmem2
      have hqb : q b = false := by
        cases hq : q b with
        | false => rfl
        | true => exact absurd (huniq b (List.mem_cons_self b bs) hq) hba
      rw [List.filter_cons, if_neg (by simp [hqb])]
      exact ih (List.nodup_cons.mp hnd).2 hmem2 hqa
        (fun x hx hqx => huniq x (List.mem_cons_of_mem _ hx) hqx)

theorem find?_getElem?_findIdx {α : Type _} (p : α → Bool) :
    ∀ (l : List α) (r : α), l.find? p = some r → l[l.findIdx p]? = some r := by
  intro l
  induction l with
  | nil => intro r h; simp [List.find?] at h
  | cons a as ih =>
    intro r h
    cases hp : p a with
    | true =>
      rw [List.find?_cons] at h
      simp only [hp] at h
      have ha : a = r := Option.some.inj h
      subst ha
      simp [List.findIdx_cons, hp]
    | false =>
      rw [List.find?_cons] at h
      simp only [hp] at h
      simp only [List.findIdx_cons, hp, cond_false]
      simpa using ih r h

theorem enum_nodup {α : Type _} (l : List α) : l.enum.Nodup :=
  List.Nodup.of_map Prod.fst (by rw [List.enum_map_fst]; exact List.nodup_range _)

theorem jsUniqueParams_filter_key (l : List ParameterObject) (n loc : String)
    (r : ParameterObject) (hfind : l.find? (paramKeyB n loc) = some r) :
    (jsUniqueParams l).filter (paramKeyB n loc) = [r] := by
  have hj : l[l.findIdx (paramKeyB n loc)]? = some r :=
    find?_getElem?_findIdx (paramKeyB n loc) l r hfind
  have hpr : paramKeyB n loc r = true := List.find?_some hfind
  have hrn : r.name = n := by
    have := (Bool.and_eq_true _ _).mp hpr
    exact (beq_iff_eq).mp this.1
  have hrl : r.inLoc = loc := by
    have := (Bool.and_eq_true _ _).mp hpr
    exact (beq_iff_eq).mp this.2
  unfold jsUniqueParams
  rw [List.filter_map, List.filter_filter]
  have hsing : l.enum.filter (fun a =>
      (paramKeyB n loc ∘ Prod.snd) a &&
        (l.findIdx (fun cand => cand.name == a.2.name && cand.inLoc == a.2.inLoc) == a.1)) =
      [(l.findIdx (paramKeyB n loc), r)] := by
    apply filter_eq_singleton_of _ _ _ (enum_nodup l)
    · exact List.mem_enum_iff_getElem?.mpr hj
    · have hSr : (fun cand : ParameterObject => cand.name == r.name && cand.inLoc == r.inLoc) =
          paramKeyB n loc := by
        funext cand
        rw [hrn, hrl]
        rfl
      simp only [Function.comp_apply, hpr, Bool.true_and, hSr]
      simp
    · intro x hx hqx
      obtain ⟨i, p⟩ := x
      simp only [Function.comp_apply, Bool.and_eq_true] at hqx
      obtain ⟨hpp, hGi⟩ := hqx
      have hpn : p.name = n := by
        have := (Bool.and_eq_true _ _).mp hpp
        exact (beq_iff_eq).mp this.1
      have hpl : p.inLoc = loc := by
        have := (Bool.and_eq_true _ _).mp hpp
        exact (beq_iff_eq).mp this.2
      have hSp : (fun cand : ParameterObject => cand.name == p.name && cand.inLoc == p.inLoc) =
          paramKeyB n loc := by
        funext cand
        rw [hpn, hpl]
        rfl
      rw [hSp] at hGi
      have hij : l.findIdx (paramKeyB n loc) = i := (beq_iff_eq).mp hGi
      subst hij
      have hpi : l[l.findIdx (paramKeyB n loc)]? = some p :=
        List.mem_enum_iff_getElem?.mp hx
      have hpr2 : p = r := by
        rw [hpi] at hj
        exact Option.some.inj hj
      rw [hpr2]
  rw [hsing]
  rfl

theorem mkParsedParameter_key (schemas : SchemaTable) (n loc : String)
    (c : ParameterObject) :
    parsedKeyB n loc (mkParsedParameter schemas c) = paramKeyB n loc c := rfl

/-- C1 counterexample: in `specC1` the path level declares `id`/`path` and
the operation level declares `id`/`path` with `required: true`; the
normalized operation has exactly one `id`/`path` parameter, but it is the
path-level declaration with `required = false` — the source keeps the first
occurrence of each `(name, in)` pair and path-level entries come first, so
the claimed operation-level override (`required = true`) is refuted. -/
theorem c1_counterexample :
    (parseOperations specC1).map ParsedOperation.parameters =
      [[{ name := "id", required := false, location := "path", description := "",
          type := "string", defaultValue := "" }]] ∧
    (parseOperations specC1).map ParsedOperation.parameters ≠
      [[{ name := "id", required := true, location := "path", description := "",
          type := "string", defaultValue := "" }]] := by
  refine ⟨by decide, by decide⟩

/-- C1 (amended): for every operation — with arbitrary parameter lists at
both levels — whose path level and operation level both declare a parameter
with the same `(name, location)` pair, the normalized operation contains
exactly one parameter for that pair (the filter by the pair is a
singleton), and it is the normalization of the first-seen path-level
declaration of the pair (`find?` over the path-level list) — every
operation-level duplicate is dropped, so in the spec's example the single
`id`/path parameter keeps `required = false`. -/
theorem c1_param_dedup_first_wins (schemas : SchemaTable) (path method : String)
    (pathItem : PathItem) (op : OperationObject) (n loc : String)
    (hpath : ∃ p ∈ pathItem.parameters, p.name = n ∧ p.inLoc = loc)
    (hop : ∃ q ∈ op.parameters, q.name = n ∧ q.inLoc = loc) :
    ∃ r, pathItem.parameters.find? (paramKeyB n loc) = some r ∧
      ((mkOperation schemas path pathItem method op).parameters.filter
        (parsedKeyB n loc)) = [mkParsedParameter schemas r] := by
  obtain ⟨p, hpmem, hpn, hpl⟩ := hpath
  have hsome : (pathItem.parameters.find? (paramKeyB n loc)).isSome = true := by
    rw [List.find?_isSome]
    exact ⟨p, hpmem, by simp [paramKeyB, hpn, hpl]⟩
  obtain ⟨r, hr⟩ := Option.isSome_iff_exists.mp hsome
  refine ⟨r, hr, ?_⟩
  have hmerged : (pathItem.parameters ++ op.parameters).find? (paramKeyB n loc) = some r := by
    rw [List.find?_append, hr]
    rfl
  show ((jsUniqueParams (pathItem.parameters ++ op.parameters)).map
    (mkParsedParameter schemas)).filter (parsedKeyB n loc) = [mkParsedParameter schemas r]
  rw [List.filter_map]
  rw [show (parsedKeyB n loc ∘ mkParsedParameter schemas) = paramKeyB n loc from rfl]
  rw [jsUniqueParams_filter_key _ n loc r hmerged]
  rfl

/-- C1 witness: the amended dedup at the concrete declarations of `specC1`:
the operation's parameter list filtered to the `id`/path pair is the
singleton normalization of the first path-level declaration. -/
theorem c1_witness :
    ∃ r, ([pID].find? (paramKeyB ("id") ("path")) = some r ∧
      ((mkOperation [] ("/users/\x7bid\x7d") { parameters := [pID], get := some opC1 }
        ("get") opC1).parameters.filter (parsedKeyB ("id") ("path"))) =
        [mkParsedParameter [] r]) := by
  refine c1_param_dedup_first_wins [] ("/users/\x7bid\x7d") ("get")
    { parameters := [pID], get := some opC1 } opC1 ("id") ("path")
    ⟨pID, List.mem_cons_self pID [], rfl, rfl⟩
    ⟨pIDreq, List.mem_cons_self pIDreq [], rfl, rfl⟩

/-- C6: in every parsed catalog, each pair of adjacent operations is
ordered by `opLE`, the ascending lexicographic order on the tuple
`(tag, path, method)` (string comparison modelled by code-point
lexicographic order). -/
theorem c6_catalog_sorted (spec : OpenApiSpec) :
    List.Chain' opLE (parseOperations spec) := by
  unfold parseOperations
  exact (List.sorted_insertionSort opLE _).chain'

theorem headD_eq_head (l : List String) (h : l ≠ []) :
    (l.head?).getD ("200") = l.head h := by
  cases l with
  | nil => exact absurd rfl h
  | cons a as => rfl

/-- C8: the success example is synthesized from code `"200"` when declared,
else from the first declared response code; the error example from `"422"`
when declared, else from the first declared `4xx`/`5xx` code, else from the
success code — and the normalized operation's two example payloads are
exactly the response examples at those codes. -/
theorem c8_success_error_code_choice (schemas : SchemaTable) (path : String)
    (pathItem : PathItem) (method : String) (op : OperationObject) :
    ((mkOperation schemas path pathItem method op).successExample =
      responseExample op.responses (successCodeOf (op.responses.map Prod.fst)) schemas) ∧
    ((mkOperation schemas path pathItem method op).errorExample =
      responseExample op.responses (errorCodeOf (op.responses.map Prod.fst)) schemas) ∧
    (("200") ∈ op.responses.map Prod.fst →
      successCodeOf (op.responses.map Prod.fst) = "200") ∧
    (∀ h : op.responses.map Prod.fst ≠ [], ("200") ∉ op.responses.map Prod.fst →
      successCodeOf (op.responses.map Prod.fst) = (op.responses.map Prod.fst).head h) ∧
    (("422") ∈ op.responses.map Prod.fst →
      errorCodeOf (op.responses.map Prod.fst) = "422") ∧
    (∀ c, ("422") ∉ op.responses.map Prod.fst →
      (op.responses.map Prod.fst).find? isErrorCode = some c →
      errorCodeOf (op.responses.map Prod.fst) = c) ∧
    (("422") ∉ op.responses.map Prod.fst →
      (op.responses.map Prod.fst).find? isErrorCode = none →
      errorCodeOf (op.responses.map Prod.fst) =
        successCodeOf (op.responses.map Prod.fst)) := by
  refine ⟨rfl, rfl, ?_, ?_, ?_, ?_, ?_⟩
  · intro hm
    unfold successCodeOf
    rw [if_pos (by simpa using hm)]
  · intro h hm
    unfold successCodeOf
    rw [if_neg (by simpa using hm)]
    exact headD_eq_head _ h
  · intro hm
    unfold errorCodeOf
    rw [if_pos (by simpa using hm)]
  · intro c hm hf
    unfold errorCodeOf
    rw [if_neg (by simpa using hm), hf]
  · intro hm hf
    unfold errorCodeOf
    rw [if_neg (by simpa using hm), hf]

/-- C8 witness: an operation declaring only `"201"` and `"500"` takes its
success code from `"201"` and its error code from `"500"`. -/
theorem c8_witness :
    successCodeOf ["201", "500"] = "201" ∧ errorCodeOf ["201", "500"] = "500" := by
  have h := c8_success_error_code_choice [] ("/a") {} ("post") op201500
  refine ⟨?_, ?_⟩
  · exact h.2.2.2.1 (by decide) (by decide)
  · exact h.2.2.2.2.2.1 ("500") (by decide) (by decide)

/-- C9: a relay payload whose (trimmed, parseable) target URL is not an
HTTPS URL with an allow-listed hostname is rejected with the 403
disallowed-host error before the method check, so the payload's method,
headers and body are irrelevant, and no upstream request (`forward`
outcome) is produced.  (Unparseable or blank URLs are rejected earlier with
400; URL parsing itself is the external `parseUrl` collaborator.) -/
theorem c9_relay_disallowed_host (parseUrl : String → Option UrlParts)
    (payload : ProxyPayload) (s : String) (u : UrlParts)
    (hurl : payload.url = some s)
    (hne : jsTrim s ≠ "")
    (hparse : parseUrl (jsTrim s) = some u)
    (hdis : ¬(u.protocol = "https:" ∧ u.hostname ∈ ALLOWED_HOSTS)) :
    handlePayload parseUrl payload =
      ProxyOutcome.reject 403 ("Target host is not allowed") ∧
    ∀ u2 m2 hs2 b2, handlePayload parseUrl payload ≠ ProxyOutcome.forward u2 m2 hs2 b2 := by
  have hmain : handlePayload parseUrl payload =
      ProxyOutcome.reject 403 ("Target host is not allowed") := by
    unfold handlePayload
    rw [hurl]
    rw [show (Option.map jsTrim (some s)).getD ("") = jsTrim s from rfl]
    rw [if_neg hne, hparse]
    exact if_pos (by tauto)
  refine ⟨hmain, ?_⟩
  intro u2 m2 hs2 b2
  rw [hmain]
  intro hcontra
  exact ProxyOutcome.noConfusion hcontra

/-- C9 witness: the payload targeting `https://evil.example.com/x` with
method POST and a body is rejected with 403. -/
theorem c9_witness :
    handlePayload (fun _ => some { protocol := "https:", hostname := "evil.example.com" })
      { url := some ("https://evil.example.com/x"), method := some ("POST"),
        body := some ("x") } =
    ProxyOutcome.reject 403 ("Target host is not allowed") := by
  exact (c9_relay_disallowed_host
    (fun _ => some { protocol := "https:", hostname := "evil.example.com" })
    { url := some ("https://evil.example.com/x"), method := some ("POST"),
      body := some ("x") }
    ("https://evil.example.com/x")
    { protocol := "https:", hostname := "evil.example.com" }
    rfl (by decide) rfl (by decide)).1

theorem underscore_append_inj : ∀ (a b x y : List Char), '_' ∉ a → '_' ∉ b →
    a ++ '_' :: x = b ++ '_' :: y → a = b ∧ x = y := by
  intro a
  induction a with
  | nil =>
    intro b x y _ hb h
    cases b with
    | nil => simpa using h
    | cons c cs =>
      simp only [List.nil_append, List.cons_append] at h
      obtain ⟨hc, -⟩ := List.cons.inj h
      have hm : ('_' : Char) ∈ c :: cs := by rw [hc]; exact List.mem_cons_self c cs
      exact absurd hm hb
  | cons c cs ih =>
    intro b x y ha hb h
    cases b with
    | nil =>
      simp only [List.cons_append, List.nil_append] at h
      obtain ⟨hc, -⟩ := List.cons.inj h
      have hm : ('_' : Char) ∈ c :: cs := by rw [← hc]; exact List.mem_cons_self c cs
      exact absurd hm ha
    | cons d ds =>
      simp only [List.cons_append] at h
      obtain ⟨hc, hrest⟩ := List.cons.inj h
      subst hc
      obtain ⟨h1, h2⟩ := ih ds x y (fun hm => ha (List.mem_cons_of_mem c hm))
        (fun hm => hb (List.mem_cons_of_mem c hm)) hrest
      exact ⟨by rw [h1], h2⟩

theorem strToList_append (a b : String) : (a ++ b).toList = a.toList ++ b.toList := by
  cases a with
  | mk da =>
    cases b with
    | mk db => rfl

theorem method_id_inj (m1 m2 p1 p2 : String)
    (h1 : '_' ∉ m1.toList) (h2 : '_' ∉ m2.toList)
    (h : m1 ++ "_" ++ p1 = m2 ++ "_" ++ p2) : m1 = m2 ∧ p1 = p2 := by
  have hl := congrArg String.toList h
  rw [strToList_append, strToList_append, strToList_append, strToList_append] at hl
  rw [show ("_" : String).toList = ['_'] from rfl] at hl
  simp only [List.append_assoc, List.singleton_append] at hl
  obtain ⟨ha, hb⟩ := underscore_append_inj _ _ _ _ h1 h2 hl
  exact ⟨strEqOfToList ha, strEqOfToList hb⟩

theorem opFor_mem (pi : PathItem) (m : String) (op : OperationObject)
    (h : pi.opFor m = some op) : m ∈ SUPPORTED_METHODS := by
  unfold PathItem.opFor at h
  split_ifs at h with h1 h2 h3 h4 h5 h6 h7 h8
  all_goals simp_all [beq_iff_eq, SUPPORTED_METHODS]

theorem method_no_underscore (m : String) (hm : m ∈ SUPPORTED_METHODS) :
    ('_' : Char) ∉ m.toList := by
  fin_cases hm <;> decide

theorem mkOperation_id_of_no_opId (schemas : SchemaTable) (path : String)
    (pi : PathItem) (m : String) (op : OperationObject) (h : op.operationId = none) :
    (mkOperation schemas path pi m op).id = m ++ "_" ++ path := by
  show op.operationId.getD (m ++ "_" ++ path) = m ++ "_" ++ path
  rw [h]
  rfl

theorem rawId_shape (spec : OpenApiSpec) (pp : String × PathItem) (hpp : pp ∈ spec.paths)
    (hno : ∀ pp ∈ spec.paths, ∀ method op, pp.2.opFor method = some op →
      op.operationId = none)
    (m : String) (b : String)
    (hb : ((pp.2.opFor m).map (fun op =>
        (mkOperation (specSchemas spec) pp.1 pp.2 m op).id)) = some b) :
    b = m ++ "_" ++ pp.1 ∧ m ∈ SUPPORTED_METHODS := by
  cases hfa : pp.2.opFor m with
  | none => rw [hfa] at hb; simp at hb
  | some op =>
    rw [hfa] at hb
    have hb2 : (mkOperation (specSchemas spec) pp.1 pp.2 m op).id = b :=
      Option.some.inj hb
    refine ⟨?_, opFor_mem pp.2 m op hfa⟩
    rw [← hb2, mkOperation_id_of_no_opId _ _ _ _ _ (hno pp hpp m op hfa)]

/-- C7: at any depth within the cap, example synthesis short-circuits in
the declared priority order on the resolved node: an explicit example is
returned verbatim; else an explicit default verbatim; else the first enum
value; else `oneOf` (then `anyOf`) recurses into the first alternative only,
one level deeper; else `allOf` recurses into every member one level deeper
and shallow-merges the object results left to right, later members
overwriting earlier keys (`objAssign`) and non-object results ignored; only
with all of those absent does it dispatch on the coarse `type`. -/
theorem c7_synthesis_priority (s : Schema) (t : SchemaTable) (d : Nat) (hd : d ≤ 5) :
    (∀ v, (resolvedOf s t).exampleVal = some v →
      buildExampleFromSchema (some s) t d = v) ∧
    (∀ v, (resolvedOf s t).exampleVal = none →
      (resolvedOf s t).defaultVal = some v →
      buildExampleFromSchema (some s) t d = v) ∧
    (∀ v vs, (resolvedOf s t).exampleVal = none →
      (resolvedOf s t).defaultVal = none →
      (resolvedOf s t).enumVals = v :: vs →
      buildExampleFromSchema (some s) t d = v) ∧
    (∀ s1 ss, (resolvedOf s t).exampleVal = none →
      (resolvedOf s t).defaultVal = none →
      (resolvedOf s t).enumVals = [] →
      (resolvedOf s t).oneOf = s1 :: ss →
      buildExampleFromSchema (some s) t d = buildExampleFromSchema (some s1) t (d + 1)) ∧
    (∀ s1 ss, (resolvedOf s t).exampleVal = none →
      (resolvedOf s t).defaultVal = none →
      (resolvedOf s t).enumVals = [] →
      (resolvedOf s t).oneOf = [] →
      (resolvedOf s t).anyOf = s1 :: ss →
      buildExampleFromSchema (some s) t d = buildExampleFromSchema (some s1) t (d + 1)) ∧
    (∀ s1 ss, (resolvedOf s t).exampleVal = none →
      (resolvedOf s t).defaultVal = none →
      (resolvedOf s t).enumVals = [] →
      (resolvedOf s t).oneOf = [] →
      (resolvedOf s t).anyOf = [] →
      (resolvedOf s t).allOf = s1 :: ss →
      buildExampleFromSchema (some s) t d =
        Value.obj (((resolvedOf s t).allOf).foldl
          (fun acc item =>
            match buildExampleFromSchema (some item) t (d + 1) with
            | .obj fields => objAssign acc fields
            | _ => acc) [])) := by
  have hf : 6 - d = (5 - d) + 1 := by omega
  have hf2 : 6 - (d + 1) = 5 - d := by omega
  unfold buildExampleFromSchema
  rw [hf, hf2]
  refine ⟨?_, ?_, ?_, ?_, ?_, ?_⟩
  · intro v hex
    simp only [buildFuel]
    rw [hex]
  · intro v hex hdf
    simp only [buildFuel]
    rw [hex, hdf]
  · intro v vs hex hdf hen
    simp only [buildFuel]
    rw [hex, hdf, hen]
  · intro s1 ss hex hdf hen hone
    simp only [buildFuel]
    rw [hex, hdf, hen, hone]
  · intro s1 ss hex hdf hen hone hany
    simp only [buildFuel]
    rw [hex, hdf, hen, hone, hany]
  · intro s1 ss hex hdf hen hone hany hall
    simp only [buildFuel]
    rw [hex, hdf, hen, hone, hany, hall]

/-- C7 witness: the composition schema `allOf [\x7bproperties: a\x7d,
\x7bproperties: b\x7d]` synthesizes, via the allOf branch of the priority
chain at depth 0, to an object containing both `a` and `b`. -/
theorem c7_witness :
    buildExampleFromSchema (some allOfAB) [] 0 =
      Value.obj [("a", Value.num 1), ("b", Value.num 1)] := by
  have h := (c7_synthesis_priority allOfAB [] 0 (by decide)).2.2.2.2.2
    schemaPropA [schemaPropB] rfl rfl rfl rfl rfl rfl
  rw [h]
  rfl

/-- C4 counterexample: in `specC4` two different paths declare operations
with the same explicit `operationId` (`dup`); the resulting catalog contains
two operations with id `dup`, so ids are not unique for every input
document — the source never deduplicates ids. -/
theorem c4_counterexample :
    ¬ ((parseOperations specC4).map ParsedOperation.id).Nodup := by
  decide

/-- C4 (amended): catalog ids are pairwise distinct for every document
whose path keys are distinct (as JS object keys are) and in which no
operation declares an explicit `operationId` — the synthesized ids
`method_path` are then injective because no method name contains an
underscore; documents with duplicate explicit operationIds can produce
duplicate ids. -/
theorem c4_ids_unique_without_operationIds (spec : OpenApiSpec)
    (hkeys : (spec.paths.map Prod.fst).Nodup)
    (hno : ∀ pp ∈ spec.paths, ∀ method op, pp.2.opFor method = some op →
      op.operationId = none) :
    ((parseOperations spec).map ParsedOperation.id).Nodup := by
  unfold parseOperations
  refine (((List.perm_insertionSort opLE _).map ParsedOperation.id).nodup_iff).mpr ?_
  unfold parseOperationsRaw
  rw [List.map_flatMap]
  rw [List.nodup_flatMap]
  constructor
  · intro pp hpp
    rw [List.map_filterMap]
    refine List.Nodup.filterMap ?_ (by decide : SUPPORTED_METHODS.Nodup)
    intro a a' b hb hb'
    simp only [Option.map_map, Option.mem_def] at hb hb'
    have ha := rawId_shape spec pp hpp hno a b hb
    have ha' := rawId_shape spec pp hpp hno a' b hb'
    exact (method_id_inj a a' pp.1 pp.1
      (method_no_underscore a ha.2) (method_no_underscore a' ha'.2)
      (ha.1 ▸ ha'.1 ▸ rfl)).1
  · have hp : spec.paths.Pairwise (fun pp qq => pp.1 ≠ qq.1) := by
      unfold List.Nodup at hkeys
      rw [List.pairwise_map] at hkeys
      exact hkeys
    refine hp.imp_of_mem ?_
    intro pp qq hpp hqq hne
    intro b hbp hbq
    simp only [] at hbp hbq
    rw [List.map_filterMap, List.mem_filterMap] at hbp hbq
    obtain ⟨m1, hm1, hb1⟩ := hbp
    obtain ⟨m2, hm2, hb2⟩ := hbq
    simp only [Option.map_map, Option.mem_def] at hb1 hb2
    have ha1 := rawId_shape spec pp hpp hno m1 b hb1
    have ha2 := rawId_shape spec qq hqq hno m2 b hb2
    exact hne (method_id_inj m1 m2 pp.1 qq.1
      (method_no_underscore m1 ha1.2) (method_no_underscore m2 ha2.2)
      (ha1.1 ▸ ha2.1 ▸ rfl)).2

/-- An operation declaring no explicit `operationId`. -/
def opNoId : OperationObject := {}

/-- A two-path document with no explicit operationIds anywhere. -/
def specC4W : OpenApiSpec :=
  { paths := [("/a", { get := some opNoId }), ("/b", { get := some opNoId })] }

/-- C4 witness: the amended uniqueness at the concrete two-path document
with no explicit operationIds. -/
theorem c4_witness : ((parseOperations specC4W).map ParsedOperation.id).Nodup := by
  apply c4_ids_unique_without_operationIds
  · decide
  · intro pp hpp method op h
    simp only [specC4W, List.mem_cons, List.not_mem_nil, or_false] at hpp
    rcases hpp with h1 | h1 <;>
      (subst h1
       unfold PathItem.opFor at h
       split_ifs at h <;> first
        | (cases h; rfl)
        | cases h)

theorem findClose_append (name post : List Char) (h : rbrace ∉ name) :
    findClose (name ++ rbrace :: post) = some (name, post) := by
  induction name with
  | nil => simp [findClose]
  | cons c cs ih =>
    have hc : ¬ ((c == rbrace) = true) := by
      simp only [beq_iff_eq]
      intro he
      exact h (he ▸ List.mem_cons_self c cs)
    simp only [List.cons_append, findClose]
    rw [if_neg hc]
    rw [show cs.append (rbrace :: post) = cs ++ rbrace :: post from rfl]
    rw [ih (fun hm => h (List.mem_cons_of_mem c hm))]
    rfl

theorem replacePathParams_cons_ne (pv : List (String × String)) (c : Char)
    (l : List Char) (hc : c ≠ lbrace) :
    replacePathParams pv (c :: l) = c :: replacePathParams pv l := by
  rw [replacePathParams.eq_def]
  exact if_neg (by simpa using hc)

/-- C10: the path-substitution stage of `buildUrl` replaces every complete
placeholder `\x7bname\x7d` (non-empty name with no closing brace inside):
when the name has an entry in the path-value map the placeholder becomes
the percent-encoding of that value, and when it has no entry it becomes the
percent-encoding of the literal text `\x7bname\x7d` (e.g. `%7Bid%7D`); the
raw placeholder never survives, and substitution never fails (it is a total
function). -/
theorem c10_placeholder_replacement (pv : List (String × String))
    (pre name post : List Char)
    (hpre : lbrace ∉ pre) (hname : name ≠ []) (hnc : rbrace ∉ name) :
    replacePathParams pv (pre ++ lbrace :: name ++ rbrace :: post) =
      pre ++ (encodeURIComponent ((pv.lookup (String.mk name)).getD
        (String.mk (lbrace :: name ++ [rbrace])))).toList ++
        replacePathParams pv post := by
  induction pre with
  | nil =>
    simp only [List.nil_append]
    rw [replacePathParams.eq_def]
    split
    · next h => simp at h
    · next c rest h =>
      obtain ⟨hc, hrest⟩ := List.cons.inj h
      subst hc
      subst hrest
      rw [if_pos (show ((lbrace == lbrace) = true) from rfl)]
      split
      · next nameChars tail hfc =>
        rw [show name.append (rbrace :: post) = name ++ rbrace :: post from rfl] at hfc
        rw [findClose_append name post hnc] at hfc
        obtain ⟨he1, he2⟩ := Prod.mk.inj (Option.some.inj hfc)
        subst he1
        subst he2
        rw [if_neg (by simpa [List.isEmpty_iff] using hname)]
      · next hfc =>
        rw [show name.append (rbrace :: post) = name ++ rbrace :: post from rfl] at hfc
        rw [findClose_append name post hnc] at hfc
        exact absurd hfc (by simp)
  | cons c cs ih =>
    have hc : c ≠ lbrace := fun he => hpre (he ▸ List.mem_cons_self c cs)
    have hpre2 : lbrace ∉ cs := fun hm => hpre (List.mem_cons_of_mem c hm)
    simp only [List.cons_append]
    rw [replacePathParams_cons_ne pv c _ hc, ih hpre2]
    rfl

/-- C10 witness: the template `/users/\x7bid\x7d` with an empty path-value
map substitutes the percent-encoded literal `%7Bid%7D` and never leaves the
raw placeholder. -/
theorem c10_witness :
    String.mk (replacePathParams [] (("/users/\x7bid\x7d").toList)) = "/users/%7Bid%7D" := by
  have h := c10_placeholder_replacement [] (("/users/").toList) (("id").toList) []
    (by decide) (by decide) (by decide)
  rw [show ("/users/\x7bid\x7d").toList =
    ("/users/").toList ++ lbrace :: ("id").toList ++ rbrace :: ([] : List Char) from rfl]
  rw [h]
  rw [show replacePathParams [] ([] : List Char) = [] from by
    rw [replacePathParams.eq_def]]
  decide

end TikHub
